import Mathlib

/-!
Verification of the poster-forge core: the folder-name parser, the media-type
detector, the badge construction, the badge geometry (bar layout), and the
poster compositor's control flow.  All definitions are shallow embeddings of
the TypeScript in `src/src/scanner/index.ts` and `src/src/compositor/index.ts`
(the compositor file contains two variants of the geometry code; they are
embedded as namespaces `V1` and `V2` in source order).  Strings are modelled
as `List Char` internally; JavaScript numbers used by the layout code are
modelled as exact rationals.
-/

namespace PosterForge

/-- JavaScript `\s` / StrWhiteSpace character class (as used by `String.prototype.trim`,
`\s+` and `parseInt`): tab, LF, VT, FF, CR, space, NBSP, and the Unicode
space separators plus line/paragraph separators and BOM. -/
def jsWs (c : Char) : Bool :=
  let n := c.toNat
  n = 32 || n = 9 || n = 10 || n = 11 || n = 12 || n = 13 ||
  n = 0xA0 || n = 0x1680 || (0x2000 ≤ n && n ≤ 0x200A) ||
  n = 0x2028 || n = 0x2029 || n = 0x202F || n = 0x205F ||
  n = 0x3000 || n = 0xFEFF

/-- The `\d` character class of JavaScript regexes: exactly ASCII `0`-`9`. -/
def isDig (c : Char) : Bool := 48 <= c.toNat && c.toNat <= 57

/-- Numeric value of a decimal digit character. -/
def digitVal (c : Char) : Nat := c.toNat - '0'.toNat

/-- Value of a list of decimal digits (most significant first). -/
def decValue (l : List Char) : Nat :=
  l.foldl (fun acc c => 10 * acc + digitVal c) 0

/-- Numeric value of a hexadecimal digit character, if it is one. -/
def hexDigitVal (c : Char) : Option Nat :=
  if isDig c then some (digitVal c)
  else if 'a' ≤ c ∧ c ≤ 'f' then some (c.toNat - 'a'.toNat + 10)
  else if 'A' ≤ c ∧ c ≤ 'F' then some (c.toNat - 'A'.toNat + 10)
  else none

def isHexDigit (c : Char) : Bool := (hexDigitVal c).isSome

def hexValue (l : List Char) : Nat :=
  l.foldl (fun acc c => 16 * acc + (hexDigitVal c).getD 0) 0

/-- JavaScript `parseInt(s)` with no radix argument: skip leading whitespace,
optional sign, `0x`/`0X` switches to base 16, then the longest run of digits;
`none` models `NaN` (no digits at all). -/
def jsParseInt (s : String) : Option Int :=
  let l := s.data.dropWhile jsWs
  let (sgn, l2) : Int × List Char :=
    match l with
    | '+' :: r => (1, r)
    | '-' :: r => (-1, r)
    | _ => (1, l)
  match l2 with
  | '0' :: x :: r =>
    if x = 'x' ∨ x = 'X' then
      let hs := r.takeWhile isHexDigit
      if hs.isEmpty then none else some (sgn * (hexValue hs : Int))
    else
      -- decimal, starting at the `0`
      let ds := l2.takeWhile isDig
      if ds.isEmpty then none else some (sgn * (decValue ds : Int))
  | _ =>
    let ds := l2.takeWhile isDig
    if ds.isEmpty then none else some (sgn * (decValue ds : Int))

/-- The `parseInt(value) || 0` idiom: `NaN` (and `0` itself) collapse to `0`. -/
def parseIntOr0 (s : String) : Int := (jsParseInt s).getD 0

/-! ## Ratings data model (`src/api/omdb.ts` interface, `compositor/index.ts`) -/

/-- `OMDBRatings.imdb`: `{ rating: string; votes: string } | null`. -/
structure OMDBImdb where
  rating : String
  votes : String
deriving DecidableEq, Repr

/-- `OMDBRatings`: each source is independently nullable. -/
structure OMDBRatings where
  imdb : Option OMDBImdb
  rottenTomatoes : Option String
  metacritic : Option String
deriving DecidableEq, Repr

inductive BadgeType where
  | imdb | rt | metacritic | tmdb
deriving DecidableEq, Repr

/-- `RatingBadge` from `compositor/index.ts`. -/
structure RatingBadge where
  type : BadgeType
  value : String
  color : String
deriving DecidableEq, Repr

/-- `BADGE_COLORS` table. -/
def BADGE_COLORS (t : BadgeType) : String :=
  match t with
  | .imdb => "#F5C518"
  | .rt => "#FA320A"
  | .metacritic => "#66CC33"
  | .tmdb => "#01D277"

/-- JavaScript `String.prototype.replace` with a plain-string pattern and empty
replacement: delete the first occurrence of `pat` (no-op when absent). -/
def replaceFirst (pat : List Char) (l : List Char) : List Char :=
  match l with
  | [] => []
  | c :: rest =>
    if pat.isPrefixOf l then l.drop pat.length
    else c :: replaceFirst pat rest

/-- `Number.prototype.toFixed(1)` on a non-negative exact rational:
round `q * 10` to the nearest integer (halves away from zero) and print with
one decimal place.  (JS numbers are binary floats; the rational is the
idealisation used throughout the layout model.) -/
def toFixed1 (q : ℚ) : String :=
  if q < 0 then
    let n : ℕ := (Int.toNat ⌊(-q) * 10 + 1/2⌋)
    "-" ++ toString (n / 10) ++ "." ++ toString (n % 10)
  else
    let n : ℕ := (Int.toNat ⌊q * 10 + 1/2⌋)
    toString (n / 10) ++ "." ++ toString (n % 10)

/-- One step of the `for (const type of showRatings)` body in
`ratingsTooBadges`: the badge pushed for `type`, if any.  Mirrors the
truthiness tests of the `if`/`else if` chain (`null` and the empty string are
falsy; `tmdbRating` must be present and strictly positive). -/
def badgeFor (ratings : OMDBRatings) (tmdbRating : Option ℚ) (type : String) :
    Option RatingBadge :=
  if type = "imdb" then
    match ratings.imdb with
    | some i => some ⟨.imdb, i.rating ++ "/10", BADGE_COLORS .imdb⟩
    | none => none
  else if type = "rt" then
    match ratings.rottenTomatoes with
    | some s =>
      if s = "" then none
      else some ⟨.rt, String.mk (replaceFirst ['%'] s.data) ++ "%", BADGE_COLORS .rt⟩
    | none => none
  else if type = "metacritic" then
    match ratings.metacritic with
    | some s =>
      if s = "" then none
      else some ⟨.metacritic, String.mk (replaceFirst "/100".data s.data), BADGE_COLORS .metacritic⟩
    | none => none
  else if type = "tmdb" then
    match tmdbRating with
    | some r => if 0 < r then some ⟨.tmdb, toFixed1 r, BADGE_COLORS .tmdb⟩ else none
    | none => none
  else none

/-- The loop of `ratingsTooBadges`, carrying the `badges` accumulator:
`if (badges.length >= 3) break;` then the push dispatch. -/
def ratingsTooBadgesGo (ratings : OMDBRatings) (tmdbRating : Option ℚ) :
    List String → List RatingBadge → List RatingBadge
  | [], badges => badges
  | type :: rest, badges =>
    if badges.length ≥ 3 then badges
    else
      match badgeFor ratings tmdbRating type with
      | some b => ratingsTooBadgesGo ratings tmdbRating rest (badges ++ [b])
      | none => ratingsTooBadgesGo ratings tmdbRating rest badges

/-- `ratingsTooBadges` (identical in both compositor variants). -/
def ratingsTooBadges (ratings : OMDBRatings) (tmdbRating : Option ℚ)
    (showRatings : List String) : List RatingBadge :=
  ratingsTooBadgesGo ratings tmdbRating showRatings []

/-- The default value of the `showRatings` parameter. -/
def defaultShowRatings : List String := ["imdb", "rt", "metacritic"]

/-! ## Folder Name Parser (`src/src/scanner/index.ts`) -/

/-- Result of `parseFolderName`. -/
structure ParsedName where
  title : String
  year : Option Nat
  imdbId : Option String
  tmdbId : Option String
  tvdbId : Option String
deriving DecidableEq, Repr

/-- Opening characters of the `YEAR_PATTERN` class `[\(\[\{]`. -/
def isYearOpen (c : Char) : Bool := c = '(' || c = '[' || c = '\x7b'

/-- Closing characters of the `YEAR_PATTERN` class `[\)\]\}]`. -/
def isYearClose (c : Char) : Bool := c = ')' || c = ']' || c = '\x7d'

/-- Opening characters of the ID patterns' class `[\[\{]` (no parenthesis). -/
def isIdOpen (c : Char) : Bool := c = '[' || c = '\x7b'

/-- Closing characters of the ID patterns' class `[\]\}]` (no parenthesis). -/
def isIdClose (c : Char) : Bool := c = ']' || c = '\x7d'

/-- All characters removed by the title cleanup `replace(/[\[\]\(\)\{\}]/g, '')`. -/
def isBracketChar (c : Char) : Bool :=
  c = '[' || c = ']' || c = '(' || c = ')' || c = '\x7b' || c = '\x7d'

/-- `(?:19|20)\d{2}` at the head of the list: the year value and the rest. -/
def yearCore : List Char → Option (Nat × List Char)
  | c0 :: c1 :: c2 :: c3 :: rest =>
    if ((c0 = '1' ∧ c1 = '9') ∨ (c0 = '2' ∧ c1 = '0')) ∧ isDig c2 ∧ isDig c3 then
      some (1000 * digitVal c0 + 100 * digitVal c1 + 10 * digitVal c2 + digitVal c3, rest)
    else none
  | _ => none

/-- Length contributed by the trailing `[\)\]\}]?` (greedy optional close). -/
def closeOpt (l : List Char) : Nat :=
  match l with
  | c :: _ => if isYearClose c then 1 else 0
  | [] => 0

/-- `YEAR_PATTERN = /[\(\[\{]?((?:19|20)\d{2})[\)\]\}]?/` attempted at the head
of `l`: `some (matchLength, capturedYear)` on success.  The optional opening
bracket is tried greedily and backtracks to the empty alternative exactly as
the JS engine does. -/
def yearMatchAt (l : List Char) : Option (Nat × Nat) :=
  match l with
  | [] => none
  | c :: rest =>
    if isYearOpen c then
      match yearCore rest with
      | some (y, after) => some (1 + 4 + closeOpt after, y)
      | none =>
        match yearCore l with
        | some (y, after) => some (4 + closeOpt after, y)
        | none => none
    else
      match yearCore l with
      | some (y, after) => some (4 + closeOpt after, y)
      | none => none

/-- Leftmost-match search, as `String.prototype.match`/`replace` perform it:
try the pattern at index 0, 1, … and return `(index, matchLength, captured)`
of the first success. -/
def scanFirst (m : List Char → Option (Nat × A)) : List Char → Option (Nat × Nat × A)
  | [] =>
    match m [] with
    | some (len, a) => some (0, len, a)
    | none => none
  | l@(_ :: rest) =>
    match m l with
    | some (len, a) => some (0, len, a)
    | none =>
      match scanFirst m rest with
      | some (i, len, a) => some (i + 1, len, a)
      | none => none

/-- `name.match(P)` + `name.replace(P, '')` for a matcher `m`: the captured
group of the first match, and the string with just that match spliced out. -/
def extractFirst (m : List Char → Option (Nat × A)) (l : List Char) :
    Option A × List Char :=
  match scanFirst m l with
  | some (i, len, a) => (some a, l.take i ++ l.drop (i + len))
  | none => (none, l)

/-- Case-insensitive literal keyword match (`/i` flag on ASCII letters):
returns the rest of the list after the keyword. -/
def kwCI : List Char → List Char → Option (List Char)
  | [], l => some l
  | k :: ks, c :: cs => if c.toLower = k then kwCI ks cs else none
  | _ :: _, [] => none

/-- The optional separator `[-:=]?` (greedy; deterministic because a separator
character can never start the following token). -/
def sepOpt (l : List Char) : List Char :=
  match l with
  | c :: rest => if c = '-' ∨ c = ':' ∨ c = '=' then rest else l
  | [] => l

/-- `IMDB_PATTERN = /[\[\{]imdb[-:=]?(tt\d+)[\]\}]/i` attempted at the head of
`l`: `some (matchLength, capture)` where the capture is `tt` plus the digits,
in the original case. -/
def imdbMatchAt (l : List Char) : Option (Nat × List Char) :=
  match l with
  | [] => none
  | b :: r1 =>
    if isIdOpen b then
      match kwCI "imdb".data r1 with
      | some r2 =>
        match sepOpt r2 with
        | t1 :: t2 :: r4 =>
          if t1.toLower = 't' ∧ t2.toLower = 't' then
            let ds := r4.takeWhile isDig
            match r4.dropWhile isDig with
            | c :: r6 =>
              if ds ≠ [] ∧ isIdClose c then
                some (l.length - r6.length, t1 :: t2 :: ds)
              else none
            | [] => none
          else none
        | _ => none
      | none => none
    else none

/-- `/[\[\{]kw[-:=]?(\d+)[\]\}]/i` attempted at the head of `l` (used for
`TMDB_PATTERN` and `TVDB_PATTERN`): the capture is the digit run. -/
def numIdMatchAt (kw : List Char) (l : List Char) : Option (Nat × List Char) :=
  match l with
  | [] => none
  | b :: r1 =>
    if isIdOpen b then
      match kwCI kw r1 with
      | some r2 =>
        let r3 := sepOpt r2
        let ds := r3.takeWhile isDig
        match r3.dropWhile isDig with
        | c :: r6 =>
          if ds ≠ [] ∧ isIdClose c then some (l.length - r6.length, ds) else none
        | [] => none
      | none => none
    else none

/-- The whitespace-collapsing pass `replace(/\s+/g, ' ')`: every maximal run
of whitespace becomes a single space.  The boolean tracks whether the
previous character was part of a whitespace run. -/
def collapseWsGo : Bool → List Char → List Char
  | _, [] => []
  | inRun, c :: cs =>
    if jsWs c then
      if inRun then collapseWsGo true cs else ' ' :: collapseWsGo true cs
    else c :: collapseWsGo false cs

def collapseWs (l : List Char) : List Char := collapseWsGo false l

/-- `String.prototype.trim()`: drop whitespace from both ends. -/
def trimWs (l : List Char) : List Char :=
  ((l.dropWhile jsWs).reverse.dropWhile jsWs).reverse

/-- The title cleanup of `parseFolderName`: strip every bracket character,
collapse whitespace runs, trim the ends. -/
def cleanTitle (l : List Char) : List Char :=
  trimWs (collapseWs (l.filter (fun c => !isBracketChar c)))

/-- The working string after the three ID-extraction steps, together with the
extracted IDs (steps 1–3 of `parseFolderName`). -/
def afterIds (l : List Char) :
    Option (List Char) × Option (List Char) × Option (List Char) × List Char :=
  let e1 := extractFirst imdbMatchAt l
  let e2 := extractFirst (numIdMatchAt "tmdb".data) e1.2
  let e3 := extractFirst (numIdMatchAt "tvdb".data) e2.2
  (e1.1, e2.1, e3.1, e3.2)

/-- `parseFolderName` from `src/src/scanner/index.ts`. -/
def parseFolderName (folderName : String) : ParsedName :=
  let ids := afterIds folderName.data
  let e4 := extractFirst yearMatchAt ids.2.2.2
  ⟨String.mk (cleanTitle e4.2), e4.1, ids.1.map String.mk, ids.2.1.map String.mk,
    ids.2.2.1.map String.mk⟩

/-! ## Media Type Detector (`src/src/scanner/index.ts`) -/

inductive MediaType where
  | movie | show
deriving DecidableEq, Repr

/-- Directory-entry kind of a `fs.Dirent` (an entry can be neither a regular
file nor a directory, e.g. a symlink). -/
inductive EntryKind where
  | dir | file | other
deriving DecidableEq, Repr

/-- One `fs.Dirent` of the listing supplied by the filesystem collaborator. -/
structure DirEntry where
  name : String
  kind : EntryKind
deriving DecidableEq, Repr

/-- `VIDEO_EXTENSIONS`. -/
def VIDEO_EXTENSIONS : List (List Char) :=
  [".mkv".data, ".mp4".data, ".avi".data, ".m4v".data, ".mov".data, ".wmv".data,
   ".ts".data, ".m2ts".data]

/-- `path.extname` on a plain entry name (no path separators): the suffix from
the last dot, except that a dot in first position is not an extension dot and
the names `.` and `..` have no extension. -/
def extname (l : List Char) : List Char :=
  if l = ['.'] ∨ l = ['.', '.'] then []
  else
    let r := l.reverse
    let pre := r.takeWhile (fun c => c ≠ '.')
    if pre.length = r.length then []
    else if pre.length + 1 = r.length then []
    else '.' :: pre.reverse

/-- `VIDEO_EXTENSIONS.includes(path.extname(name).toLowerCase())`. -/
def hasVideoExt (name : String) : Bool :=
  VIDEO_EXTENSIONS.contains ((extname name.data).map Char.toLower)

/-- `\s*\d+` tested at the head of the list: skip whitespace greedily, then
require at least one digit. -/
def wsThenDigit (l : List Char) : Bool :=
  match l.dropWhile jsWs with
  | d :: _ => isDig d
  | [] => false

/-- `/^(season|s)\s*\d+/i.test(name)`: anchored at the start, `season` or `s`
case-insensitively, optional whitespace, at least one digit (trailing text is
unconstrained). -/
def seasonTest (name : String) : Bool :=
  (match kwCI "season".data name.data with
   | some rest => wsThenDigit rest
   | none => false) ||
  (match kwCI "s".data name.data with
   | some rest => wsThenDigit rest
   | none => false)

/-- `t` (case-insensitive) followed by at least one digit, at the head. -/
def charThenDigit (t : Char) (l : List Char) : Bool :=
  match l with
  | c :: d :: _ => c.toLower = t && isDig d
  | _ => false

/-- `\d{1,2}` then `t` (case-insensitive) then `\d{1,2}`, at the head of `l`
after an initial digit has already been consumed... -/
def oneOrTwoDigitsThen (t : Char) (l : List Char) : Bool :=
  charThenDigit t l ||
  (match l with
   | d2 :: r2 => isDig d2 && charThenDigit t r2
   | [] => false)

/-- `s\d{1,2}e\d{1,2}` attempted at the head of `l` (case-insensitive). -/
def sxxeyyAt (l : List Char) : Bool :=
  match l with
  | c :: d1 :: rest => c.toLower = 's' && isDig d1 && oneOrTwoDigitsThen 'e' rest
  | _ => false

/-- `(\d{1,2})x(\d{1,2})` attempted at the head of `l` (case-insensitive). -/
def nxmAt (l : List Char) : Bool :=
  match l with
  | d1 :: rest => isDig d1 && oneOrTwoDigitsThen 'x' rest
  | [] => false

/-- The episode-token pattern attempted at the head of `l`. -/
def episodeAt (l : List Char) : Bool := sxxeyyAt l || nxmAt l

/-- Unanchored `test`: does the pattern match at some position? -/
def existsAt (p : List Char → Bool) : List Char → Bool
  | [] => p []
  | l@(_ :: rest) => p l || existsAt p rest

/-- `/s\d{1,2}e\d{1,2}|(\d{1,2})x(\d{1,2})/i.test(name)`. -/
def episodeTest (name : String) : Bool := existsAt episodeAt name.data

/-- `detectMediaType`, taking the directory listing supplied by
`fs.readdirSync(folderPath, { withFileTypes: true })` as input. -/
def detectMediaType (entries : List DirEntry) : MediaType :=
  let hasSeasonFolders := entries.any (fun e => e.kind = EntryKind.dir && seasonTest e.name)
  if hasSeasonFolders then .show
  else
    let videoFiles := entries.filter (fun e => e.kind = EntryKind.file && hasVideoExt e.name)
    let hasEpisodePattern := videoFiles.any (fun f => episodeTest f.name)
    if hasEpisodePattern then .show else .movie

/-! ## Badge Geometry Engine, first compositor variant (`createRatingBar`,
lines 86–128 of `src/src/compositor/index.ts`) -/

/-- The `currentX` walk shared by both bar-layout variants: emit the current
x, then advance by the badge's width estimate plus the inter-badge gap. -/
def barXsGo (w : RatingBadge → ℚ) (g : ℚ) (x : ℚ) : List RatingBadge → List ℚ
  | [] => []
  | b :: rest => x :: barXsGo w g (x + w b + g) rest

namespace V1

/-- `getBadgeWidth`: base width (IMDb badges are wider) plus 9 px per value
character. -/
def getBadgeWidth (badge : RatingBadge) : ℚ :=
  (if badge.type = BadgeType.imdb then 52 else 34) + badge.value.length * 9

/-- `gapBetweenBadges`. -/
def gap : ℚ := 20

/-- The width-accumulation pass: widths of all badges plus a gap after every
badge except the last. -/
def totalWidth : List RatingBadge → ℚ
  | [] => 0
  | [b] => getBadgeWidth b
  | b :: c :: rest => getBadgeWidth b + gap + totalWidth (c :: rest)

/-- The x position of every badge in the bar, in order: `currentX` starts at
`(posterWidth - totalWidth) / 2` and advances by badge width plus gap. -/
def positions (badges : List RatingBadge) (posterWidth : ℚ) : List ℚ :=
  barXsGo getBadgeWidth gap ((posterWidth - totalWidth badges) / 2) badges

/-- The geometry of the rating bar: a full-width, fixed-height band plus the
laid-out badges. -/
structure BarLayout where
  width : ℚ
  height : ℚ
  badgeXs : List ℚ
deriving DecidableEq, Repr

/-- `createRatingBar` (first variant): bar height 32, centered badge row. -/
def createRatingBar (badges : List RatingBadge) (posterWidth : ℚ) : BarLayout :=
  ⟨posterWidth, 32, positions badges posterWidth⟩

end V1

/-! ## Badge Geometry Engine, second compositor variant (`createRatingBar`,
lines 307–393, and the threshold coloring also used by `createCornerOverlay`
and `createMinimalOverlay` of that variant) -/

/-- The Metacritic icon background: `const score = parseInt(badge.value) || 0;`
then green by default, red below 40, yellow from 40 up to 60. -/
def metacriticColor (value : String) : String :=
  let score := parseIntOr0 value
  if score < 40 then "#FF0000"
  else if score < 61 then "#FFCC33"
  else "#66CC33"

namespace V2

/-- `iconSize`. -/
def iconSize : ℚ := 40

/-- `fontSize`. -/
def fontSize : ℚ := 28

/-- `gapBetweenRatings`. -/
def gap : ℚ := 30

/-- `iconTextGap`. -/
def iconTextGap : ℚ := 10

/-- The per-badge width estimate of the `ratingWidths` map: Metacritic is a
bare box (`iconSize + 5`); every other kind is icon + gap + estimated text
width (`value.length * fontSize * 0.6`). -/
def ratingWidth (badge : RatingBadge) : ℚ :=
  if badge.type = BadgeType.metacritic then iconSize + 5
  else iconSize + iconTextGap + badge.value.length * (fontSize * (6/10))

/-- `ratingWidths.reduce((a, b) => a + b, 0) + gapBetweenRatings * (badges.length - 1)`.
(For an empty list this is `-30`, exactly as in the source.) -/
def totalWidth (badges : List RatingBadge) : ℚ :=
  (badges.map ratingWidth).sum + gap * ((badges.length : ℚ) - 1)

/-- The x positions of the draw pass: `currentX` starts at
`(posterWidth - totalWidth) / 2` and advances by `ratingWidths[i] + gap`. -/
def positions (badges : List RatingBadge) (posterWidth : ℚ) : List ℚ :=
  barXsGo ratingWidth gap ((posterWidth - totalWidth badges) / 2) badges

/-- The shape drawn for one badge (only what distinguishes the variants is
kept: the icon form, and for Metacritic the threshold-colored background). -/
inductive DrawKind where
  | imdbBox
  | rtTomato
  | mcBox (bgColor : String)
  | tmdbCircle
deriving DecidableEq, Repr

/-- One laid-out badge of the bar. -/
structure PlacedBadge where
  kind : DrawKind
  x : ℚ
  value : String
deriving DecidableEq, Repr

/-- The draw instruction for one badge at position `x`. -/
def drawBadge (b : RatingBadge) (x : ℚ) : PlacedBadge :=
  match b.type with
  | .imdb => ⟨.imdbBox, x, b.value⟩
  | .rt => ⟨.rtTomato, x, b.value⟩
  | .metacritic => ⟨.mcBox (metacriticColor b.value), x, b.value⟩
  | .tmdb => ⟨.tmdbCircle, x, b.value⟩

/-- Bar geometry of the second variant: height 70, full-width band, one placed
badge per input badge. -/
structure BarLayout where
  width : ℚ
  height : ℚ
  items : List PlacedBadge
deriving DecidableEq, Repr

/-- `createRatingBar` (second variant). -/
def createRatingBar (badges : List RatingBadge) (posterWidth : ℚ) : BarLayout :=
  ⟨posterWidth, 70, (badges.zip (positions badges posterWidth)).map
    (fun p => drawBadge p.1 p.2)⟩

end V2

/-! ## Poster Compositor (`createRatedPoster`, first variant, lines 238–289) -/

/-- The `style` option. -/
inductive Style where
  | badges | bar | minimal
deriving DecidableEq, Repr

/-- The options object of `createRatedPoster` (after destructuring defaults:
`style = 'bar'`, `showRatings = ['imdb', 'rt', 'metacritic']`). -/
structure ComposeOptions where
  tmdbRating : Option ℚ
  style : Style
  showRatings : List String
deriving DecidableEq, Repr

/-- The default options (`{}` argument). -/
def defaultComposeOptions : ComposeOptions := ⟨none, .bar, defaultShowRatings⟩

/-- The overlay handed to `sharp(...).composite` by the first variant:
bar layout, corner badges (y = 10 + 52·i), or minimal chips (x = 8 + 38·i). -/
inductive Overlay where
  | bar (layout : V1.BarLayout)
  | corner (placed : List (RatingBadge × ℚ))
  | minimal (placed : List (RatingBadge × ℚ))
deriving DecidableEq, Repr

/-- `createCornerOverlay` geometry of the first variant: badge `i` at
`y = 10 + i * 52`. -/
def cornerPlacement (badges : List RatingBadge) : List (RatingBadge × ℚ) :=
  (List.zip badges (List.range badges.length)).map (fun p => (p.1, 10 + p.2 * 52))

/-- `createMinimalOverlay` geometry of the first variant: badge `i` at
`x = 8 + i * 38`. -/
def minimalPlacement (badges : List RatingBadge) : List (RatingBadge × ℚ) :=
  (List.zip badges (List.range badges.length)).map (fun p => (p.1, 8 + p.2 * 38))

/-- What `createRatedPoster` returns: either the input buffer itself
(no decode of the pixels, no re-encode), or a JPEG re-encode of the base
composited with an overlay at an anchor. -/
inductive ComposeOut where
  | passthrough (bytes : List Nat)
  | encodedJpeg (base : List Nat) (overlay : Overlay) (top : ℤ) (left : ℤ) (quality : ℕ)
deriving DecidableEq, Repr

/-- `metadata.width || 780` (`0` and absence both fall back). -/
def widthOr (default : ℕ) (w : Option ℕ) : ℕ :=
  match w with
  | some v => if v = 0 then default else v
  | none => default

/-- `createRatedPoster` (first variant).  The sharp metadata read is the one
fallible step (`Except.error` models a rejected promise on undecodable
input); the caller supplies its result. -/
def createRatedPoster (meta : Except String (Option ℕ × Option ℕ))
    (posterBuffer : List Nat) (ratings : OMDBRatings) (options : ComposeOptions) :
    Except String ComposeOut :=
  match meta with
  | .error e => .error e
  | .ok (w, h) =>
    let width := widthOr 780 w
    let height := widthOr 1170 h
    let badges := ratingsTooBadges ratings options.tmdbRating options.showRatings
    if badges.length = 0 then
      .ok (ComposeOut.passthrough posterBuffer)
    else
      match options.style with
      | .bar =>
        .ok (ComposeOut.encodedJpeg posterBuffer
          (.bar (V1.createRatingBar badges width)) ((height : ℤ) - 32) 0 90)
      | .minimal =>
        .ok (ComposeOut.encodedJpeg posterBuffer
          (.minimal (minimalPlacement badges)) 0 0 90)
      | .badges =>
        .ok (ComposeOut.encodedJpeg posterBuffer
          (.corner (cornerPlacement badges)) 0 0 90)

/-- Irrelevant default used for total list indexing in layout statements. -/
def dfltBadge : RatingBadge := ⟨.imdb, "", ""⟩

/-! ### Declarative forms of the detector's regex tests -/

/-- The `/i` canonicalisation on ASCII letters. -/
def lowerChars (l : List Char) : List Char := l.map Char.toLower

/-- What `/^(season|s)\s*\d+/i.test(name)` recognises, declaratively: the
name starts with `season` or `s` (case-insensitively), then a run of
whitespace, then a digit. -/
def SeasonNameP (l : List Char) : Prop :=
  ∃ pre sp d suf, l = pre ++ sp ++ d :: suf ∧
    (lowerChars pre = "season".data ∨ lowerChars pre = "s".data) ∧
    (∀ c ∈ sp, jsWs c = true) ∧ isDig d = true

/-- An `s\d{1,2}e\d{1,2}` token (case-insensitive) at the head of `l`. -/
def SxxEyyP (l : List Char) : Prop :=
  (∃ s d1 e d2 rest, l = s :: d1 :: e :: d2 :: rest ∧
    s.toLower = 's' ∧ isDig d1 = true ∧ e.toLower = 'e' ∧ isDig d2 = true) ∨
  (∃ s d1 d1' e d2 rest, l = s :: d1 :: d1' :: e :: d2 :: rest ∧
    s.toLower = 's' ∧ isDig d1 = true ∧ isDig d1' = true ∧ e.toLower = 'e' ∧
    isDig d2 = true)

/-- A `(\d{1,2})x(\d{1,2})` token (case-insensitive) at the head of `l`. -/
def NxMP (l : List Char) : Prop :=
  (∃ d1 x d2 rest, l = d1 :: x :: d2 :: rest ∧
    isDig d1 = true ∧ x.toLower = 'x' ∧ isDig d2 = true) ∨
  (∃ d1 d1' x d2 rest, l = d1 :: d1' :: x :: d2 :: rest ∧
    isDig d1 = true ∧ isDig d1' = true ∧ x.toLower = 'x' ∧ isDig d2 = true)

/-- An episode token at the head of `l`. -/
def EpisodeTokenP (l : List Char) : Prop := SxxEyyP l ∨ NxMP l

/-- The season-folder heuristic exactly as claim C8 words it: the directory
name "matches `season` case-insensitively with an optional trailing number
(with or without a space) or is a bare `S<number>` token" — in particular the
trailing number may be absent after `season`, and the `S<number>` form allows
nothing after the digits. -/
def claimSeasonName (name : String) : Prop :=
  (∃ sp num, lowerChars name.data = "season".data ++ sp ++ num ∧
    (∀ c ∈ sp, jsWs c = true) ∧ (∀ c ∈ num, isDig c = true)) ∨
  (∃ num, num ≠ [] ∧ (∀ c ∈ num, isDig c = true) ∧
    lowerChars name.data = 's' :: num)

/-! ## Theorems -/

/-- The loop of `ratingsTooBadges` equals a filter of the preference order
followed by truncation to the remaining capacity. -/
theorem ratingsTooBadgesGo_eq (r : OMDBRatings) (t : Option ℚ) (l : List String) :
    ∀ acc : List RatingBadge,
      ratingsTooBadgesGo r t l acc =
        if 3 ≤ acc.length then acc
        else acc ++ (l.filterMap (badgeFor r t)).take (3 - acc.length) := by
  induction l with
  | nil =>
    intro acc
    by_cases h : 3 ≤ acc.length
    · simp [ratingsTooBadgesGo, h]
    · simp [ratingsTooBadgesGo, h]
  | cons ty rest ih =>
    intro acc
    rw [ratingsTooBadgesGo]
    by_cases h : 3 ≤ acc.length
    · rw [if_pos (by simpa using h), if_pos h]
    · rw [if_neg (by simp [h]), if_neg h]
      cases hb : badgeFor r t ty with
      | none =>
        dsimp only
        rw [ih acc, if_neg h]
        simp [List.filterMap_cons, hb]
      | some b =>
        dsimp only
        rw [ih (acc ++ [b])]
        simp only [List.filterMap_cons, hb, List.length_append, List.length_cons,
          List.length_nil]
        by_cases h2 : 3 ≤ acc.length + 1
        · rw [if_pos (by simpa using h2)]
          have h4 : 3 - acc.length = 1 := by omega
          rw [h4]
          simp
        · rw [if_neg (by simpa using h2)]
          have h3 : 3 - acc.length = (3 - (acc.length + 1)) + 1 := by omega
          rw [h3, List.take_succ_cons, List.append_assoc, List.singleton_append]

/-- C4, badge list construction: for every ratings input, optional
catalog-native (TMDB) score and preferred source order, `ratingsTooBadges`
equals the preference order filtered through the per-entry dispatch
`badgeFor` (which appends a badge only when that source has data — for the
`tmdb` entry only when a strictly positive score was supplied — and skips
unrecognized entries) truncated to the first 3 hits; hence at most 3 badges,
in preference order.  Moreover `badgeFor` yields nothing on unrecognized
entries, and yields a `tmdb` badge only for a strictly positive supplied
score. -/
theorem c4_badge_list_construction :
    (∀ (r : OMDBRatings) (t : Option ℚ) (order : List String),
      ratingsTooBadges r t order = (order.filterMap (badgeFor r t)).take 3) ∧
    (∀ (r : OMDBRatings) (t : Option ℚ) (order : List String),
      (ratingsTooBadges r t order).length ≤ 3) ∧
    (∀ (r : OMDBRatings) (t : Option ℚ) (ty : String),
      ty ∉ ["imdb", "rt", "metacritic", "tmdb"] → badgeFor r t ty = none) ∧
    (∀ (r : OMDBRatings) (b : RatingBadge),
      badgeFor r none "tmdb" = none ∧
      (∀ q : ℚ, badgeFor r (some q) "tmdb" = some b → 0 < q)) := by
  have base : ∀ (r : OMDBRatings) (t : Option ℚ) (order : List String),
      ratingsTooBadges r t order = (order.filterMap (badgeFor r t)).take 3 := by
    intro r t order
    rw [ratingsTooBadges, ratingsTooBadgesGo_eq]
    simp
  refine ⟨base, ?_, ?_, ?_⟩
  · intro r t order
    rw [base]
    exact List.length_take_le 3 _
  · intro r t ty h
    simp only [List.mem_cons, List.mem_singleton, not_or] at h
    obtain ⟨h1, h2, h3, h4⟩ := h
    simp [badgeFor, h1, h2, h3, h4]
  · intro r b
    constructor
    · simp [badgeFor]
    · intro q h
      simp only [badgeFor, if_pos rfl] at h
      by_cases hq : 0 < q
      · exact hq
      · simp [hq] at h

/-- C10, implicit: the preferred source order is not deduplicated.  With
`['imdb', 'imdb']` and IMDb data present, two identical IMDb badges are
produced; with four copies the 3-badge cap truncates to exactly 3. -/
theorem c10_no_dedup_of_source_order :
    ratingsTooBadges ⟨some ⟨"8.5", "354001"⟩, none, none⟩ none ["imdb", "imdb"] =
      [⟨.imdb, "8.5/10", "#F5C518"⟩, ⟨.imdb, "8.5/10", "#F5C518"⟩] ∧
    (ratingsTooBadges ⟨some ⟨"8.5", "354001"⟩, none, none⟩ none
        ["imdb", "imdb", "imdb", "imdb"]).length = 3 := by
  exact ⟨rfl, rfl⟩

/-- C2, Metacritic threshold coloring: the icon background is computed from
the display string parsed as a leading integer (`parseInt`, with unparsable
strings defaulting to 0): at least 61 gives the good color `#66CC33`, from 40
to 60 the mixed color `#FFCC33`, below 40 the poor color `#FF0000`; and the
strings "75", "50", "20", "abc" map to good, mixed, poor, poor. -/
theorem c2_metacritic_threshold_coloring :
    (∀ v : String, metacriticColor v =
      if 61 ≤ parseIntOr0 v then "#66CC33"
      else if 40 ≤ parseIntOr0 v then "#FFCC33"
      else "#FF0000") ∧
    metacriticColor "75" = "#66CC33" ∧ metacriticColor "50" = "#FFCC33" ∧
    metacriticColor "20" = "#FF0000" ∧ metacriticColor "abc" = "#FF0000" := by
  refine ⟨fun v => ?_, rfl, rfl, rfl, rfl⟩
  show (if parseIntOr0 v < 40 then "#FF0000"
    else if parseIntOr0 v < 61 then "#FFCC33" else "#66CC33") = _
  split_ifs <;> first | rfl | (exfalso; omega)

/-- C1, empty-badge no-op: whenever the constructed badge list is empty,
`createRatedPoster` (with successfully read metadata) returns the input
poster buffer itself — the `passthrough` constructor carries the input bytes
unchanged, no overlay is built and no JPEG re-encode happens. -/
theorem c1_empty_badges_passthrough (m : Option ℕ × Option ℕ) (buf : List Nat)
    (ratings : OMDBRatings) (options : ComposeOptions)
    (h : ratingsTooBadges ratings options.tmdbRating options.showRatings = []) :
    createRatedPoster (.ok m) buf ratings options = .ok (.passthrough buf) := by
  unfold createRatedPoster
  simp [h]

/-- Witness for C1 at a concrete input: all-null ratings with the default
options yield no badges, and the output is exactly the input bytes. -/
theorem c1_empty_badges_passthrough_witness :
    ratingsTooBadges ⟨none, none, none⟩ defaultComposeOptions.tmdbRating
        defaultComposeOptions.showRatings = [] ∧
    createRatedPoster (.ok (some 780, some 1170)) [7] ⟨none, none, none⟩
        defaultComposeOptions = .ok (.passthrough [7]) :=
  ⟨rfl, c1_empty_badges_passthrough (some 780, some 1170) [7] ⟨none, none, none⟩
    defaultComposeOptions rfl⟩

/-- C9, totality: `parseFolderName` always returns a `ParsedName` (a missing
match is an absent field, not an error — there is no error case in its type),
and `detectMediaType` always returns one of the two classifications. -/
theorem c9_parser_detector_totality :
    (∀ s : String, ∃ t y i1 i2 i3, parseFolderName s = ⟨t, y, i1, i2, i3⟩) ∧
    (∀ entries : List DirEntry,
      detectMediaType entries = .show ∨ detectMediaType entries = .movie) := by
  constructor
  · intro s
    exact ⟨_, _, _, _, _, rfl⟩
  · intro entries
    have key : ∀ m : MediaType, m = .show ∨ m = .movie := by
      intro m
      cases m
      · exact Or.inr rfl
      · exact Or.inl rfl
    exact key _

/-! ### Bar layout lemmas (C3) -/

theorem barXsGo_getD (w : RatingBadge → ℚ) (g : ℚ) (bs : List RatingBadge) :
    ∀ (x : ℚ) (i : ℕ), i < bs.length →
      (barXsGo w g x bs).getD i 0 = x + ((bs.take i).map (fun b => w b + g)).sum := by
  induction bs with
  | nil => intro x i h; simp at h
  | cons b rest ih =>
    intro x i h
    cases i with
    | zero => simp [barXsGo]
    | succ j =>
      rw [barXsGo]
      rw [List.getD_cons_succ, List.take_succ_cons, List.map_cons, List.sum_cons,
        ih (x + w b + g) j (by simpa using h)]
      ring

theorem barXsGo_last (w : RatingBadge → ℚ) (g : ℚ) :
    ∀ (bs : List RatingBadge) (b0 : RatingBadge) (x : ℚ),
      (barXsGo w g x (b0 :: bs)).getLast?.getD 0 +
          w ((b0 :: bs).getLast?.getD dfltBadge) =
        x + (((b0 :: bs).map w).sum + g * (((b0 :: bs).length : ℚ) - 1)) := by
  intro bs
  induction bs with
  | nil =>
    intro b0 x
    simp [barXsGo]
  | cons c rest ih =>
    intro b0 x
    rw [barXsGo, barXsGo, List.getLast?_cons_cons, List.getLast?_cons_cons, ← barXsGo]
    rw [ih c (x + w b0 + g)]
    simp only [List.map_cons, List.sum_cons, List.length_cons]
    push_cast
    ring

/-- `totalWidth` of the first variant in closed form (nonempty lists). -/
theorem totalWidth_eq_V1 :
    ∀ (bs : List RatingBadge) (b0 : RatingBadge),
      V1.totalWidth (b0 :: bs) =
        ((b0 :: bs).map V1.getBadgeWidth).sum +
          V1.gap * (((b0 :: bs).length : ℚ) - 1) := by
  intro bs
  induction bs with
  | nil => intro b0; simp [V1.totalWidth]
  | cons c rest ih =>
    intro b0
    rw [V1.totalWidth, ih c]
    simp only [List.map_cons, List.sum_cons, List.length_cons]
    push_cast
    ring

/-- `totalWidth` of the second variant in closed form. -/
theorem totalWidth_eq_V2 (bs : List RatingBadge) :
    V2.totalWidth bs =
      (bs.map V2.ratingWidth).sum + V2.gap * ((bs.length : ℚ) - 1) := rfl

/-- The x coordinate of a drawn badge is the x it was placed at. -/
theorem V2.drawBadge_x (b : RatingBadge) (x : ℚ) : (V2.drawBadge b x).x = x := by
  cases b with
  | mk ty v c => cases ty <;> rfl

/-- The x coordinates of the second variant's draw pass are exactly the
computed positions. -/
theorem V2.items_xs :
    ∀ (bs : List RatingBadge) (x : ℚ),
      ((bs.zip (barXsGo V2.ratingWidth V2.gap x bs)).map
          (fun p => (V2.drawBadge p.1 p.2).x)) =
        barXsGo V2.ratingWidth V2.gap x bs := by
  intro bs
  induction bs with
  | nil => intro x; rfl
  | cons b rest ih =>
    intro x
    rw [barXsGo, List.zip_cons_cons, List.map_cons, V2.drawBadge_x, ih]

/-- C3, BottomBar centering invariant: for 1 to 3 badges and any canvas
width, in both bar-layout variants the first badge sits at
`(W - totalWidth) / 2`, each subsequent badge sits at the previous badge's
right edge (previous x plus its width estimate) plus the fixed gap, and the
group's horizontal center — first x plus last badge's right edge, halved —
equals `W / 2`.  The group may overflow the canvas: some one-badge group is
wider than some canvas. -/
theorem c3_bottombar_centering :
    (∀ (badges : List RatingBadge) (W : ℚ), 1 ≤ badges.length → badges.length ≤ 3 →
      ((V1.createRatingBar badges W).badgeXs.headD 0 =
          (W - V1.totalWidth badges) / 2 ∧
        (∀ i, i + 1 < badges.length →
          (V1.createRatingBar badges W).badgeXs.getD (i + 1) 0 =
            (V1.createRatingBar badges W).badgeXs.getD i 0 +
              V1.getBadgeWidth (badges.getD i dfltBadge) + V1.gap) ∧
        (V1.createRatingBar badges W).badgeXs.headD 0 +
            ((V1.createRatingBar badges W).badgeXs.getLast?.getD 0 +
              V1.getBadgeWidth (badges.getLast?.getD dfltBadge)) = 2 * (W / 2)) ∧
      (((V2.createRatingBar badges W).items.map V2.PlacedBadge.x).headD 0 =
          (W - V2.totalWidth badges) / 2 ∧
        (∀ i, i + 1 < badges.length →
          ((V2.createRatingBar badges W).items.map V2.PlacedBadge.x).getD (i + 1) 0 =
            ((V2.createRatingBar badges W).items.map V2.PlacedBadge.x).getD i 0 +
              V2.ratingWidth (badges.getD i dfltBadge) + V2.gap) ∧
        ((V2.createRatingBar badges W).items.map V2.PlacedBadge.x).headD 0 +
            (((V2.createRatingBar badges W).items.map V2.PlacedBadge.x).getLast?.getD 0 +
              V2.ratingWidth (badges.getLast?.getD dfltBadge)) = 2 * (W / 2))) ∧
    (∃ (bs : List RatingBadge) (Wnarrow : ℚ),
      bs.length = 1 ∧ Wnarrow < V1.totalWidth bs ∧ Wnarrow < V2.totalWidth bs) := by
  constructor
  · intro badges W h1 _h3
    cases badges with
    | nil => simp at h1
    | cons b0 rest =>
      have hxs1 : (V1.createRatingBar (b0 :: rest) W).badgeXs =
          barXsGo V1.getBadgeWidth V1.gap
            ((W - V1.totalWidth (b0 :: rest)) / 2) (b0 :: rest) := rfl
      have hxs2 : ((V2.createRatingBar (b0 :: rest) W).items.map V2.PlacedBadge.x) =
          barXsGo V2.ratingWidth V2.gap
            ((W - V2.totalWidth (b0 :: rest)) / 2) (b0 :: rest) := by
        have h0 : (V2.createRatingBar (b0 :: rest) W).items =
            ((b0 :: rest).zip (barXsGo V2.ratingWidth V2.gap
              ((W - V2.totalWidth (b0 :: rest)) / 2) (b0 :: rest))).map
              (fun p => V2.drawBadge p.1 p.2) := rfl
        rw [h0, List.map_map]
        exact V2.items_xs (b0 :: rest) _
      refine ⟨⟨?_, ?_, ?_⟩, ⟨?_, ?_, ?_⟩⟩
      · rw [hxs1, barXsGo]; rfl
      · intro i hi
        rw [hxs1, barXsGo_getD _ _ _ _ (i + 1) hi,
          barXsGo_getD _ _ _ _ i (by omega)]
        rw [List.take_succ, List.getElem?_eq_getElem (by omega : i < (b0 :: rest).length)]
        rw [List.getD_eq_getElem _ dfltBadge (by omega : i < (b0 :: rest).length)]
        simp only [Option.toList_some, List.map_append, List.sum_append, List.map_cons,
          List.map_nil, List.sum_cons, List.sum_nil]
        ring
      · rw [hxs1, barXsGo_last]
        rw [show (barXsGo V1.getBadgeWidth V1.gap
            ((W - V1.totalWidth (b0 :: rest)) / 2) (b0 :: rest)).headD 0 =
            (W - V1.totalWidth (b0 :: rest)) / 2 from by rw [barXsGo]; rfl]
        rw [totalWidth_eq_V1]
        ring
      · rw [hxs2, barXsGo]; rfl
      · intro i hi
        rw [hxs2, barXsGo_getD _ _ _ _ (i + 1) hi,
          barXsGo_getD _ _ _ _ i (by omega)]
        rw [List.take_succ, List.getElem?_eq_getElem (by omega : i < (b0 :: rest).length)]
        rw [List.getD_eq_getElem _ dfltBadge (by omega : i < (b0 :: rest).length)]
        simp only [Option.toList_some, List.map_append, List.sum_append, List.map_cons,
          List.map_nil, List.sum_cons, List.sum_nil]
        ring
      · rw [hxs2, barXsGo_last]
        rw [show (barXsGo V2.ratingWidth V2.gap
            ((W - V2.totalWidth (b0 :: rest)) / 2) (b0 :: rest)).headD 0 =
            (W - V2.totalWidth (b0 :: rest)) / 2 from by rw [barXsGo]; rfl]
        rw [totalWidth_eq_V2]
        ring
  · refine ⟨[⟨.metacritic, "75", "#66CC33"⟩], 10, rfl, ?_, ?_⟩
    · show (10 : ℚ) < V1.totalWidth [⟨.metacritic, "75", "#66CC33"⟩]
      have hl : (("75".length : ℕ) : ℚ) = 2 := by
        norm_num [show "75".length = 2 from rfl]
      simp [V1.totalWidth, V1.getBadgeWidth, hl]
      norm_num
    · show (10 : ℚ) < V2.totalWidth [⟨.metacritic, "75", "#66CC33"⟩]
      simp [V2.totalWidth, V2.ratingWidth, V2.gap, V2.iconSize]
      norm_num

/-- Witness for C3 at a concrete input: two badges on a 780-wide canvas; the
group center equals 390. -/
theorem c3_bottombar_centering_witness :
    (V1.createRatingBar [⟨.imdb, "8.5/10", "#F5C518"⟩, ⟨.rt, "93%", "#FA320A"⟩]
          780).badgeXs.headD 0 +
        ((V1.createRatingBar [⟨.imdb, "8.5/10", "#F5C518"⟩, ⟨.rt, "93%", "#FA320A"⟩]
          780).badgeXs.getLast?.getD 0 +
          V1.getBadgeWidth
            (([⟨.imdb, "8.5/10", "#F5C518"⟩,
              (⟨.rt, "93%", "#FA320A"⟩ : RatingBadge)].getLast?).getD dfltBadge)) =
      2 * ((780 : ℚ) / 2) :=
  ((c3_bottombar_centering.1
    [⟨.imdb, "8.5/10", "#F5C518"⟩, ⟨.rt, "93%", "#FA320A"⟩] 780
    (by decide) (by decide)).1).2.2

/-! ### Detector lemmas (C8) -/

theorem kwCI_sound :
    ∀ (kw l r : List Char), kwCI kw l = some r →
      ∃ pre, l = pre ++ r ∧ lowerChars pre = kw := by
  intro kw
  induction kw with
  | nil =>
    intro l r h
    rw [kwCI] at h
    cases h
    exact ⟨[], rfl, rfl⟩
  | cons k ks ih =>
    intro l r h
    cases l with
    | nil => exact absurd h (by rw [kwCI]; simp)
    | cons c cs =>
      rw [kwCI] at h
      by_cases hc : c.toLower = k
      · rw [if_pos hc] at h
        obtain ⟨pre, hpre, hlow⟩ := ih cs r h
        refine ⟨c :: pre, by simp [hpre], ?_⟩
        show c.toLower :: lowerChars pre = k :: ks
        rw [hc, hlow]
      · rw [if_neg hc] at h
        exact absurd h (by simp)

theorem kwCI_complete :
    ∀ (pre r : List Char), kwCI (lowerChars pre) (pre ++ r) = some r := by
  intro pre
  induction pre with
  | nil => intro r; rfl
  | cons c cs ih =>
    intro r
    show kwCI (c.toLower :: lowerChars cs) (c :: (cs ++ r)) = some r
    rw [kwCI, if_pos rfl]
    exact ih r

theorem dropWhile_append_all (p : Char → Bool) :
    ∀ (sp t : List Char), (∀ c ∈ sp, p c = true) →
      List.dropWhile p (sp ++ t) = List.dropWhile p t := by
  intro sp t
  induction sp with
  | nil => intro _; rfl
  | cons c cs ih =>
    intro h
    rw [List.cons_append, List.dropWhile_cons_of_pos (h c (by simp))]
    exact ih (fun d hd => h d (by simp [hd]))

theorem digit_not_ws (c : Char) (h : isDig c = true) : jsWs c = false := by
  simp only [isDig, Bool.and_eq_true, decide_eq_true_eq] at h
  simp only [jsWs, Bool.or_eq_false_iff, Bool.and_eq_false_iff,
    decide_eq_false_iff_not]
  omega

theorem wsThenDigit_iff (l : List Char) :
    wsThenDigit l = true ↔
      ∃ sp d suf, l = sp ++ d :: suf ∧ (∀ c ∈ sp, jsWs c = true) ∧
        isDig d = true := by
  constructor
  · intro h
    rw [wsThenDigit] at h
    cases hd : l.dropWhile jsWs with
    | nil => rw [hd] at h; exact absurd h (by simp)
    | cons d tail =>
      rw [hd] at h
      refine ⟨l.takeWhile jsWs, d, tail, ?_, ?_, h⟩
      · conv_lhs => rw [← @List.takeWhile_append_dropWhile _ jsWs l]
        rw [hd]
      · intro c hc
        exact List.mem_takeWhile_imp hc
  · rintro ⟨sp, d, suf, rfl, hsp, hd⟩
    rw [wsThenDigit, dropWhile_append_all jsWs sp _ hsp,
      List.dropWhile_cons_of_neg (by simp [digit_not_ws d hd])]
    exact hd

theorem seasonTest_iff (name : String) :
    seasonTest name = true ↔ SeasonNameP name.data := by
  rw [seasonTest]
  constructor
  · intro h
    rcases Bool.or_eq_true_iff.mp h with h1 | h1
    · cases hk : kwCI "season".data name.data with
      | none => rw [hk] at h1; exact absurd h1 (by simp)
      | some rest =>
        rw [hk] at h1
        obtain ⟨pre, hpre, hlow⟩ := kwCI_sound _ _ _ hk
        obtain ⟨sp, d, suf, hrest, hsp, hd⟩ := (wsThenDigit_iff rest).mp h1
        exact ⟨pre, sp, d, suf, by rw [hpre, hrest, List.append_assoc], Or.inl hlow,
          hsp, hd⟩
    · cases hk : kwCI "s".data name.data with
      | none => rw [hk] at h1; exact absurd h1 (by simp)
      | some rest =>
        rw [hk] at h1
        obtain ⟨pre, hpre, hlow⟩ := kwCI_sound _ _ _ hk
        obtain ⟨sp, d, suf, hrest, hsp, hd⟩ := (wsThenDigit_iff rest).mp h1
        exact ⟨pre, sp, d, suf, by rw [hpre, hrest, List.append_assoc], Or.inr hlow,
          hsp, hd⟩
  · rintro ⟨pre, sp, d, suf, heq, hpre | hpre, hsp, hd⟩
    · apply Bool.or_eq_true_iff.mpr
      left
      rw [heq, List.append_assoc, ← hpre, kwCI_complete pre (sp ++ d :: suf)]
      exact (wsThenDigit_iff _).mpr ⟨sp, d, suf, rfl, hsp, hd⟩
    · apply Bool.or_eq_true_iff.mpr
      right
      rw [heq, List.append_assoc, ← hpre, kwCI_complete pre (sp ++ d :: suf)]
      exact (wsThenDigit_iff _).mpr ⟨sp, d, suf, rfl, hsp, hd⟩

theorem existsAt_iff (p : List Char → Bool) :
    ∀ l, existsAt p l = true ↔ ∃ n, p (l.drop n) = true := by
  intro l
  induction l with
  | nil =>
    rw [existsAt]
    constructor
    · intro h; exact ⟨0, h⟩
    · rintro ⟨n, h⟩; simpa using h
  | cons c rest ih =>
    rw [existsAt]
    constructor
    · intro h
      rcases Bool.or_eq_true_iff.mp h with h1 | h1
      · exact ⟨0, h1⟩
      · obtain ⟨n, hn⟩ := ih.mp h1
        exact ⟨n + 1, by simpa using hn⟩
    · rintro ⟨n, hn⟩
      apply Bool.or_eq_true_iff.mpr
      cases n with
      | zero => exact Or.inl hn
      | succ m => exact Or.inr (ih.mpr ⟨m, by simpa using hn⟩)

theorem charThenDigit_iff (t : Char) (l : List Char) :
    charThenDigit t l = true ↔
      ∃ c d rest, l = c :: d :: rest ∧ c.toLower = t ∧ isDig d = true := by
  cases l with
  | nil => simp [charThenDigit]
  | cons c l2 =>
    cases l2 with
    | nil => simp [charThenDigit]
    | cons d rest =>
      rw [charThenDigit]
      simp only [Bool.and_eq_true, decide_eq_true_eq]
      constructor
      · rintro ⟨h1, h2⟩; exact ⟨c, d, rest, rfl, h1, h2⟩
      · rintro ⟨c', d', rest', heq, h1, h2⟩
        obtain ⟨rfl, rfl, rfl⟩ : c = c' ∧ d = d' ∧ rest = rest' := by
          simpa using heq
        exact ⟨h1, h2⟩

theorem oneOrTwoDigitsThen_iff (t : Char) (l : List Char) :
    oneOrTwoDigitsThen t l = true ↔
      ((∃ c d rest, l = c :: d :: rest ∧ c.toLower = t ∧ isDig d = true) ∨
       (∃ d' c d rest, l = d' :: c :: d :: rest ∧ isDig d' = true ∧
          c.toLower = t ∧ isDig d = true)) := by
  unfold oneOrTwoDigitsThen
  constructor
  · intro h
    rcases Bool.or_eq_true_iff.mp h with h1 | h1
    · exact Or.inl ((charThenDigit_iff t l).mp h1)
    · cases l with
      | nil => exact absurd h1 (by simp)
      | cons d' r2 =>
        obtain ⟨hd', hct⟩ : isDig d' = true ∧ charThenDigit t r2 = true := by
          simpa using h1
        obtain ⟨c, d, rest, rfl, h2, h3⟩ := (charThenDigit_iff t r2).mp hct
        exact Or.inr ⟨d', c, d, rest, rfl, hd', h2, h3⟩
  · rintro (⟨c, d, rest, rfl, h1, h2⟩ | ⟨d', c, d, rest, rfl, h1, h2, h3⟩)
    · exact Bool.or_eq_true_iff.mpr (Or.inl
        ((charThenDigit_iff t _).mpr ⟨c, d, rest, rfl, h1, h2⟩))
    · refine Bool.or_eq_true_iff.mpr (Or.inr ?_)
      simp only [Bool.and_eq_true, decide_eq_true_eq]
      exact ⟨h1, (charThenDigit_iff t _).mpr ⟨c, d, rest, rfl, h2, h3⟩⟩

theorem sxxeyyAt_iff (l : List Char) : sxxeyyAt l = true ↔ SxxEyyP l := by
  cases l with
  | nil => simp [sxxeyyAt, SxxEyyP]
  | cons c l2 =>
    cases l2 with
    | nil =>
      simp only [sxxeyyAt, SxxEyyP]
      constructor
      · intro h; exact absurd h (by simp)
      · rintro (⟨a, b, e, f, g, heq, _⟩ | ⟨a, b, b2, e, f, g, heq, _⟩) <;>
          exact absurd heq (by simp)
    | cons d1 rest =>
      rw [sxxeyyAt]
      simp only [Bool.and_eq_true, decide_eq_true_eq]
      constructor
      · rintro ⟨⟨h1, h2⟩, h3⟩
        rcases (oneOrTwoDigitsThen_iff 'e' rest).mp h3 with
          ⟨e, d2, r, rfl, he, hd2⟩ | ⟨db, e, d2, r, rfl, hdb, he, hd2⟩
        · exact Or.inl ⟨c, d1, e, d2, r, rfl, h1, h2, he, hd2⟩
        · exact Or.inr ⟨c, d1, db, e, d2, r, rfl, h1, h2, hdb, he, hd2⟩
      · rintro (⟨a, b, e, f, g, heq, h1, h2, h3, h4⟩ |
          ⟨a, b, b2, e, f, g, heq, h1, h2, h3, h4, h5⟩)
        · obtain ⟨rfl, rfl, rfl⟩ : c = a ∧ d1 = b ∧ rest = e :: f :: g := by
            simpa using heq
          exact ⟨⟨h1, h2⟩, (oneOrTwoDigitsThen_iff 'e' _).mpr
            (Or.inl ⟨e, f, g, rfl, h3, h4⟩)⟩
        · obtain ⟨rfl, rfl, rfl⟩ : c = a ∧ d1 = b ∧ rest = b2 :: e :: f :: g := by
            simpa using heq
          exact ⟨⟨h1, h2⟩, (oneOrTwoDigitsThen_iff 'e' _).mpr
            (Or.inr ⟨b2, e, f, g, rfl, h3, h4, h5⟩)⟩

theorem nxmAt_iff (l : List Char) : nxmAt l = true ↔ NxMP l := by
  cases l with
  | nil =>
    simp only [nxmAt, NxMP]
    constructor
    · intro h; exact absurd h (by simp)
    · rintro (⟨a, b, e, f, heq, _⟩ | ⟨a, b, b2, e, f, heq, _⟩) <;>
        exact absurd heq (by simp)
  | cons d1 rest =>
    rw [nxmAt]
    simp only [Bool.and_eq_true, decide_eq_true_eq]
    constructor
    · rintro ⟨h1, h2⟩
      rcases (oneOrTwoDigitsThen_iff 'x' rest).mp h2 with
        ⟨xc, d2, r, rfl, hx, hd2⟩ | ⟨db, xc, d2, r, rfl, hdb, hx, hd2⟩
      · exact Or.inl ⟨d1, xc, d2, r, rfl, h1, hx, hd2⟩
      · exact Or.inr ⟨d1, db, xc, d2, r, rfl, h1, hdb, hx, hd2⟩
    · rintro (⟨a, xc, d2, r, heq, h1, h2, h3⟩ |
        ⟨a, ab, xc, d2, r, heq, h1, h2, h3, h4⟩)
      · obtain ⟨rfl, rfl⟩ : d1 = a ∧ rest = xc :: d2 :: r := by simpa using heq
        exact ⟨h1, (oneOrTwoDigitsThen_iff 'x' _).mpr
          (Or.inl ⟨xc, d2, r, rfl, h2, h3⟩)⟩
      · obtain ⟨rfl, rfl⟩ : d1 = a ∧ rest = ab :: xc :: d2 :: r := by
          simpa using heq
        exact ⟨h1, (oneOrTwoDigitsThen_iff 'x' _).mpr
          (Or.inr ⟨ab, xc, d2, r, rfl, h2, h3, h4⟩)⟩

theorem episodeTest_iff (name : String) :
    episodeTest name = true ↔ ∃ n, EpisodeTokenP (name.data.drop n) := by
  rw [episodeTest, existsAt_iff]
  constructor
  · rintro ⟨n, hn⟩
    rcases Bool.or_eq_true_iff.mp hn with h | h
    · exact ⟨n, Or.inl ((sxxeyyAt_iff _).mp h)⟩
    · exact ⟨n, Or.inr ((nxmAt_iff _).mp h)⟩
  · rintro ⟨n, h | h⟩
    · exact ⟨n, Bool.or_eq_true_iff.mpr (Or.inl ((sxxeyyAt_iff _).mpr h))⟩
    · exact ⟨n, Bool.or_eq_true_iff.mpr (Or.inr ((nxmAt_iff _).mpr h))⟩

/-- C8 amended: `detectMediaType` classifies a listing as a series exactly
when some immediate subdirectory name starts (case-insensitively) with
`season` or `s` followed by optional whitespace and at least one digit, or
some file with a recognized video extension contains an `SxxEyy`-style or
`NxM`-style token.  (Amended from C8: the trailing number is required, not
optional, and the `S<number>` form need not be bare — trailing text after
the digits is allowed.) -/
theorem c8_detect_iff (entries : List DirEntry) :
    detectMediaType entries = .show ↔
      ((∃ e ∈ entries, e.kind = EntryKind.dir ∧ SeasonNameP e.name.data) ∨
       (∃ e ∈ entries, e.kind = EntryKind.file ∧ hasVideoExt e.name = true ∧
          ∃ n, EpisodeTokenP (e.name.data.drop n))) := by
  simp only [detectMediaType]
  split_ifs with h1 h2
  · simp only [true_iff]
    obtain ⟨e, he, hp⟩ := List.any_eq_true.mp h1
    obtain ⟨hk, hs⟩ : e.kind = EntryKind.dir ∧ seasonTest e.name = true := by
      simpa using hp
    exact Or.inl ⟨e, he, hk, (seasonTest_iff e.name).mp hs⟩
  · simp only [true_iff]
    obtain ⟨e, he, hp⟩ := List.any_eq_true.mp h2
    rcases List.mem_filter.mp he with ⟨hmem, hf⟩
    obtain ⟨hk, hx⟩ : e.kind = EntryKind.file ∧ hasVideoExt e.name = true := by
      simpa using hf
    exact Or.inr ⟨e, hmem, hk, hx, (episodeTest_iff e.name).mp hp⟩
  · constructor
    · intro h; exact absurd h (by simp)
    · rintro (⟨e, he, hk, hs⟩ | ⟨e, he, hk, hx, hep⟩)
      · exact absurd (List.any_eq_true.mpr ⟨e, he,
          by simp [hk, (seasonTest_iff e.name).mpr hs]⟩) h1
      · exact absurd (List.any_eq_true.mpr ⟨e, List.mem_filter.mpr ⟨he,
          by simp [hk, hx]⟩, (episodeTest_iff e.name).mpr hep⟩) h2

/-- C8 counterexample to the claim as stated: the directory name `Season`
satisfies the claim's season heuristic (the trailing number is optional
there), yet `detectMediaType` classifies the listing as a feature; conversely
`S01extras` satisfies neither claimed form (it is not bare), yet the code
classifies it as a series. -/
theorem c8_counterexample :
    detectMediaType [⟨"Season", .dir⟩] = .movie ∧
    claimSeasonName "Season" ∧
    detectMediaType [⟨"S01extras", .dir⟩] = .show ∧
    ¬ claimSeasonName "S01extras" := by
  refine ⟨rfl, ?_, rfl, ?_⟩
  · exact Or.inl ⟨[], [], by simp [lowerChars], by simp, by simp⟩
  · rintro (⟨sp, num, heq, _, _⟩ | ⟨num, _, hnum, heq⟩)
    · have hL : lowerChars "S01extras".data = "s01extras".data := rfl
      rw [hL] at heq
      have h1 : ("s01extras".data)[1]? = ("season".data ++ (sp ++ num))[1]? :=
        congrArg (fun l => l[1]?) heq
      rw [List.getElem?_append] at h1
      rw [if_pos (by decide : (1 : Nat) < "season".data.length)] at h1
      exact absurd h1 (by decide)
    · have hL : lowerChars "S01extras".data = "s01extras".data := rfl
      rw [hL] at heq
      have heq2 : ('s' : Char) :: "01extras".data = 's' :: num := heq
      have hnumeq : num = "01extras".data := by
        have h3 : "01extras".data = num := by simpa using heq2
        exact h3.symm
      have hmem : ('e' : Char) ∈ num := by rw [hnumeq]; decide
      exact absurd (hnum 'e' hmem) (by decide)

/-! ### Leftmost-match lemmas and the year-extraction policy (C5) -/

theorem scanFirst_some_min (m : List Char → Option (Nat × A)) :
    ∀ (l : List Char) (i len : Nat) (a : A), scanFirst m l = some (i, len, a) →
      m (l.drop i) = some (len, a) ∧ ∀ j < i, m (l.drop j) = none := by
  intro l
  induction l with
  | nil =>
    intro i len a h
    rw [scanFirst] at h
    cases hm : m [] with
    | none => rw [hm] at h; exact absurd h (by simp)
    | some p =>
      rw [hm] at h
      obtain ⟨rfl, rfl, rfl⟩ : i = 0 ∧ len = p.1 ∧ a = p.2 := by
        cases p; simpa using h.symm
      exact ⟨by simpa using hm, fun j hj => absurd hj (by omega)⟩
  | cons c rest ih =>
    intro i len a h
    rw [scanFirst] at h
    cases hm : m (c :: rest) with
    | some p =>
      rw [hm] at h
      obtain ⟨rfl, rfl, rfl⟩ : i = 0 ∧ len = p.1 ∧ a = p.2 := by
        cases p; simpa using h.symm
      exact ⟨by simpa using hm, fun j hj => absurd hj (by omega)⟩
    | none =>
      rw [hm] at h
      cases hs : scanFirst m rest with
      | none => rw [hs] at h; exact absurd h (by simp)
      | some q =>
        rw [hs] at h
        obtain ⟨hi, hlen, ha⟩ : i = q.1 + 1 ∧ len = q.2.1 ∧ a = q.2.2 := by
          simpa [Prod.ext_iff] using h.symm
        subst hi; subst hlen; subst ha
        obtain ⟨h1, h2⟩ := ih q.1 q.2.1 q.2.2 hs
        refine ⟨by simpa using h1, ?_⟩
        intro j hj
        cases j with
        | zero => simpa using hm
        | succ j2 => simpa using h2 j2 (by omega)

theorem scanFirst_eq_none (m : List Char → Option (Nat × A)) :
    ∀ l : List Char, (∀ n, m (l.drop n) = none) → scanFirst m l = none := by
  intro l
  induction l with
  | nil =>
    intro h
    rw [scanFirst]
    rw [show m [] = none from by simpa using h 0]
  | cons c rest ih =>
    intro h
    rw [scanFirst]
    rw [show m (c :: rest) = none from by simpa using h 0]
    rw [ih (fun n => by simpa using h (n + 1))]

/-- C5 counterexample to the claim as stated: in
`"[tmdb1999] 2005 Movie"` the leftmost year-like substring of the input is
`1999` (matched at index 5, inside the TMDB ID token), yet `parseFolderName`
extracts `2005`, because the ID tokens are removed before the year step. -/
theorem c5_counterexample :
    scanFirst yearMatchAt "[tmdb1999] 2005 Movie".data = some (5, 5, 1999) ∧
    (parseFolderName "[tmdb1999] 2005 Movie").year = some 2005 ∧
    (2005 : Nat) ≠ 1999 := by
  refine ⟨by decide, by decide, by decide⟩

/-- C5 amended: the year step operates on the working string left after the
three ID extractions.  On that string, a missing match leaves the year
absent; otherwise the year is the leftmost match (no earlier position
matches), and only that one occurrence is spliced out before the title
cleanup. -/
theorem c5_year_extraction (s : String) :
    (scanFirst yearMatchAt (afterIds s.data).2.2.2 = none →
      (parseFolderName s).year = none) ∧
    (∀ (i len y : Nat),
      scanFirst yearMatchAt (afterIds s.data).2.2.2 = some (i, len, y) →
      (parseFolderName s).year = some y ∧
      (∀ j < i, yearMatchAt ((afterIds s.data).2.2.2.drop j) = none) ∧
      yearMatchAt ((afterIds s.data).2.2.2.drop i) = some (len, y) ∧
      (parseFolderName s).title =
        String.mk (cleanTitle ((afterIds s.data).2.2.2.take i ++
          (afterIds s.data).2.2.2.drop (i + len)))) := by
  constructor
  · intro h
    show (extractFirst yearMatchAt (afterIds s.data).2.2.2).1 = none
    rw [extractFirst, h]
  · intro i len y h
    have hmin := scanFirst_some_min yearMatchAt _ i len y h
    refine ⟨?_, hmin.2, hmin.1, ?_⟩
    · show (extractFirst yearMatchAt (afterIds s.data).2.2.2).1 = some y
      rw [extractFirst, h]
    · show String.mk (cleanTitle (extractFirst yearMatchAt
        (afterIds s.data).2.2.2).2) = _
      rw [extractFirst, h]

/-- Witness for C5 (amended) at `"A 1999 B 2005"`: the year taken is the
leftmost match 1999 (found at index 2; index 0 does not match). -/
theorem c5_year_extraction_witness :
    (parseFolderName "A 1999 B 2005").year = some 1999 ∧
    yearMatchAt ((afterIds "A 1999 B 2005".data).2.2.2.drop 0) = none :=
  ⟨((c5_year_extraction "A 1999 B 2005").2 2 4 1999 (by decide)).1,
   ((c5_year_extraction "A 1999 B 2005").2 2 4 1999 (by decide)).2.1 0
     (by decide)⟩

/-! ### Whitespace-normalisation lemmas (C6, C7) -/

theorem dropWhile_head_false (p : Char → Bool) :
    ∀ (l : List Char) (c : Char) (r : List Char),
      l.dropWhile p = c :: r → p c = false := by
  intro l
  induction l with
  | nil => intro c r h; exact absurd h (by simp)
  | cons d rest ih =>
    intro c r h
    cases hp : p d with
    | true => rw [List.dropWhile_cons_of_pos hp] at h; exact ih c r h
    | false =>
      rw [List.dropWhile_cons_of_neg (by simp [hp])] at h
      obtain ⟨rfl, -⟩ : d = c ∧ rest = r := by simpa using h
      exact hp

theorem trimWs_startOf (l : List Char) : trimWs l <+: l.dropWhile jsWs := by
  rw [trimWs]
  have h3 : (l.dropWhile jsWs).reverse.dropWhile jsWs <:+ (l.dropWhile jsWs).reverse :=
    List.dropWhile_suffix jsWs
  simpa using List.reverse_prefix.mpr h3

theorem trimWs_part (l : List Char) : trimWs l <:+: l :=
  (trimWs_startOf l).isInfix.trans (List.dropWhile_suffix jsWs).isInfix

theorem trimWs_head (l : List Char) (c : Char)
    (h : (trimWs l).head? = some c) : jsWs c = false := by
  cases ht : trimWs l with
  | nil => rw [ht] at h; exact absurd h (by simp)
  | cons c0 r =>
    rw [ht] at h
    obtain rfl : c0 = c := by simpa using h
    obtain ⟨t, htl⟩ := trimWs_startOf l
    rw [ht] at htl
    exact dropWhile_head_false jsWs l c0 (r ++ t) (by rw [← htl]; simp)

theorem trimWs_last (l : List Char) (c : Char)
    (h : (trimWs l).getLast? = some c) : jsWs c = false := by
  rw [List.getLast?_eq_head?_reverse] at h
  have hrev : (trimWs l).reverse = (l.dropWhile jsWs).reverse.dropWhile jsWs := by
    rw [trimWs, List.reverse_reverse]
  rw [hrev] at h
  cases ht : (l.dropWhile jsWs).reverse.dropWhile jsWs with
  | nil => rw [ht] at h; exact absurd h (by simp)
  | cons c0 r =>
    rw [ht] at h
    obtain rfl : c0 = c := by simpa using h
    exact dropWhile_head_false jsWs (l.dropWhile jsWs).reverse c0 r ht

theorem trimWs_eq_self (l : List Char)
    (h1 : ∀ c, l.head? = some c → jsWs c = false)
    (h2 : ∀ c, l.getLast? = some c → jsWs c = false) : trimWs l = l := by
  rw [trimWs]
  have hd : l.dropWhile jsWs = l := by
    cases l with
    | nil => rfl
    | cons c r => exact List.dropWhile_cons_of_neg (by simp [h1 c rfl])
  rw [hd]
  have hd2 : l.reverse.dropWhile jsWs = l.reverse := by
    cases hr : l.reverse with
    | nil => rfl
    | cons c r =>
      have hlast : l.getLast? = some c := by
        rw [List.getLast?_eq_head?_reverse, hr]; rfl
      exact List.dropWhile_cons_of_neg (by simp [h2 c hlast])
  rw [hd2, List.reverse_reverse]

theorem collapseWsGo_mem :
    ∀ (l : List Char) (b : Bool) (c : Char),
      c ∈ collapseWsGo b l → c ∈ l ∨ c = ' ' := by
  intro l
  induction l with
  | nil => intro b c h; rw [collapseWsGo] at h; exact absurd h (by simp)
  | cons d rest ih =>
    intro b c h
    rw [collapseWsGo] at h
    cases hd : jsWs d with
    | true =>
      rw [if_pos hd] at h
      cases b with
      | true =>
        rw [if_pos rfl] at h
        rcases ih true c h with h2 | h2
        · exact Or.inl (by simp [h2])
        · exact Or.inr h2
      | false =>
        rw [if_neg (by simp)] at h
        rcases List.mem_cons.mp h with rfl | h2
        · exact Or.inr rfl
        · rcases ih true c h2 with h3 | h3
          · exact Or.inl (by simp [h3])
          · exact Or.inr h3
    | false =>
      rw [if_neg (by simp [hd])] at h
      rcases List.mem_cons.mp h with rfl | h2
      · exact Or.inl (by simp)
      · rcases ih false c h2 with h3 | h3
        · exact Or.inl (by simp [h3])
        · exact Or.inr h3

theorem collapseWsGo_props :
    ∀ (l : List Char) (b : Bool),
      (∀ c ∈ collapseWsGo b l, jsWs c = true → c = ' ') ∧
      (collapseWsGo b l).Chain' (fun a b2 => jsWs a = false ∨ jsWs b2 = false) ∧
      (b = true → ∀ c, (collapseWsGo b l).head? = some c → jsWs c = false) := by
  intro l
  induction l with
  | nil =>
    intro b
    refine ⟨by rw [collapseWsGo]; simp, by rw [collapseWsGo]; simp, ?_⟩
    intro _ c h
    rw [collapseWsGo] at h
    exact absurd h (by simp)
  | cons c cs ih =>
    intro b
    cases hw : jsWs c with
    | true =>
      cases b with
      | true =>
        have he : collapseWsGo true (c :: cs) = collapseWsGo true cs := by
          rw [collapseWsGo, if_pos hw, if_pos rfl]
        rw [he]
        exact ih true
      | false =>
        have he : collapseWsGo false (c :: cs) = ' ' :: collapseWsGo true cs := by
          rw [collapseWsGo, if_pos hw, if_neg (by simp)]
        rw [he]
        refine ⟨?_, ?_, ?_⟩
        · intro d hd hwd
          rcases List.mem_cons.mp hd with rfl | hd2
          · rfl
          · exact (ih true).1 d hd2 hwd
        · rw [List.chain'_cons']
          refine ⟨?_, (ih true).2.1⟩
          intro y hy
          exact Or.inr ((ih true).2.2 rfl y hy)
        · intro hfalse
          exact absurd hfalse (by simp)
    | false =>
      have he : collapseWsGo b (c :: cs) = c :: collapseWsGo false cs := by
        rw [collapseWsGo, if_neg (by simp [hw])]
      rw [he]
      refine ⟨?_, ?_, ?_⟩
      · intro d hd hwd
        rcases List.mem_cons.mp hd with rfl | hd2
        · exact absurd hwd (by simp [hw])
        · exact (ih false).1 d hd2 hwd
      · rw [List.chain'_cons']
        exact ⟨fun y _ => Or.inl hw, (ih false).2.1⟩
      · intro _ d hd
        obtain rfl : c = d := by simpa using hd
        exact hw

theorem collapseWsGo_eq_self :
    ∀ l : List Char,
      (∀ c ∈ l, jsWs c = true → c = ' ') →
      l.Chain' (fun a b2 => jsWs a = false ∨ jsWs b2 = false) →
      (collapseWsGo false l = l ∧
        ((∀ c, l.head? = some c → jsWs c = false) → collapseWsGo true l = l)) := by
  intro l
  induction l with
  | nil => intro _ _; exact ⟨rfl, fun _ => rfl⟩
  | cons c cs ih =>
    intro hmem hch
    have hR := (List.chain'_cons'.mp hch).1
    have hch2 := (List.chain'_cons'.mp hch).2
    have ihh := ih (fun d hd hw => hmem d (by simp [hd]) hw) hch2
    constructor
    · rw [collapseWsGo]
      cases hw : jsWs c with
      | true =>
        have hc : c = ' ' := hmem c (by simp) hw
        rw [if_pos rfl, if_neg (by simp)]
        have hcs : collapseWsGo true cs = cs := by
          apply ihh.2
          intro d hd
          rcases hR d hd with hfalse | h
          · exact absurd hfalse (by simp [hw])
          · exact h
        rw [hcs, hc]
      | false =>
        rw [if_neg (by simp), ihh.1]
    · intro hh
      rw [collapseWsGo]
      have hw : jsWs c = false := hh c rfl
      rw [if_neg (by simp [hw]), ihh.1]

/-! ### Title cleanup and parser identity (C6, C7) -/

theorem isIdOpen_bracket (c : Char) (h : isIdOpen c = true) :
    isBracketChar c = true := by
  simp only [isIdOpen, Bool.or_eq_true, decide_eq_true_eq] at h
  rcases h with rfl | rfl <;> rfl

theorem cleanTitle_no_brackets (l : List Char) :
    ∀ c ∈ cleanTitle l, isBracketChar c = false := by
  intro c h
  have h2 : c ∈ collapseWs (l.filter (fun d => !isBracketChar d)) :=
    (trimWs_part (collapseWs (l.filter (fun d => !isBracketChar d)))).subset h
  rcases collapseWsGo_mem _ false c h2 with h3 | rfl
  · have h4 := (List.mem_filter.mp h3).2
    simpa using h4
  · rfl

theorem scanFirst_no_idOpen (m : List Char → Option (Nat × A))
    (h0 : m [] = none) (hstep : ∀ c r, isIdOpen c = false → m (c :: r) = none)
    (l : List Char) (h : ∀ c ∈ l, isIdOpen c = false) : scanFirst m l = none := by
  apply scanFirst_eq_none
  intro n
  cases hd : l.drop n with
  | nil => exact h0
  | cons c r =>
    apply hstep
    apply h
    exact List.mem_of_mem_drop (hd ▸ List.mem_cons_self c r)

theorem imdbMatchAt_no_open (c : Char) (r : List Char) (h : isIdOpen c = false) :
    imdbMatchAt (c :: r) = none := by
  rw [imdbMatchAt, if_neg (by simp [h])]

theorem numIdMatchAt_no_open (kw : List Char) (c : Char) (r : List Char)
    (h : isIdOpen c = false) : numIdMatchAt kw (c :: r) = none := by
  rw [numIdMatchAt, if_neg (by simp [h])]

theorem afterIds_no_open (l : List Char) (h : ∀ c ∈ l, isIdOpen c = false) :
    afterIds l = (none, none, none, l) := by
  have h1 : extractFirst imdbMatchAt l = (none, l) := by
    rw [extractFirst, scanFirst_no_idOpen imdbMatchAt rfl
      (fun c r hc => imdbMatchAt_no_open c r hc) l h]
  have h2 : extractFirst (numIdMatchAt "tmdb".data) l = (none, l) := by
    rw [extractFirst, scanFirst_no_idOpen _ rfl
      (fun c r hc => numIdMatchAt_no_open _ c r hc) l h]
  have h3 : extractFirst (numIdMatchAt "tvdb".data) l = (none, l) := by
    rw [extractFirst, scanFirst_no_idOpen _ rfl
      (fun c r hc => numIdMatchAt_no_open _ c r hc) l h]
  simp only [afterIds, h1, h2, h3]

theorem matchNone_all (m : List Char → Option (Nat × A)) (l : List Char)
    (hlt : ∀ n < l.length, m (l.drop n) = none) (hnil : m [] = none) :
    ∀ n, m (l.drop n) = none := by
  intro n
  by_cases hn : n < l.length
  · exact hlt n hn
  · rw [List.drop_eq_nil_of_le (by omega)]
    exact hnil

theorem cleanTitle_cleanTitle (l : List Char) :
    cleanTitle (cleanTitle l) = cleanTitle l := by
  have hfilter : (cleanTitle l).filter (fun c => !isBracketChar c) = cleanTitle l :=
    List.filter_eq_self.mpr (fun c hc => by simp [cleanTitle_no_brackets l c hc])
  have hprops := collapseWsGo_props (l.filter (fun c => !isBracketChar c)) false
  have hmem : ∀ c ∈ cleanTitle l, jsWs c = true → c = ' ' := by
    intro c hc
    exact hprops.1 c
      ((trimWs_part (collapseWs (l.filter (fun d => !isBracketChar d)))).subset hc)
  have hch : (cleanTitle l).Chain' (fun a b2 => jsWs a = false ∨ jsWs b2 = false) :=
    List.Chain'.infix hprops.2.1 (trimWs_part _)
  have hcol : collapseWs (cleanTitle l) = cleanTitle l :=
    (collapseWsGo_eq_self (cleanTitle l) hmem hch).1
  have hhead : ∀ c, (cleanTitle l).head? = some c → jsWs c = false :=
    fun c hc => trimWs_head _ c hc
  have hlastf : ∀ c, (cleanTitle l).getLast? = some c → jsWs c = false :=
    fun c hc => trimWs_last _ c hc
  show trimWs (collapseWs ((cleanTitle l).filter (fun c => !isBracketChar c))) =
    cleanTitle l
  rw [hfilter, hcol]
  exact trimWs_eq_self _ hhead hlastf

/-- C6 counterexample to the claim as stated: for the input `"2020 2021"` the
extracted title is `"2021"`, and parsing that title again strips the year,
yielding the empty title — re-running parse on the title does not return it
unchanged. -/
theorem c6_counterexample :
    (parseFolderName "2020 2021").title = "2021" ∧
    (parseFolderName ((parseFolderName "2020 2021").title)).title = "" ∧
    ("" : String) ≠ "2021" :=
  ⟨by decide, by decide, by decide⟩

/-- C6 amended: `parse` is idempotent on its title field for every input
whose extracted title contains no further year-like substring; on such
inputs re-parsing the title changes nothing at all (same title, no year,
no IDs).  In general a second year-like substring survives into the title
and is stripped by the second parse. -/
theorem c6_title_idempotent (s : String)
    (h : ∀ n, yearMatchAt (((parseFolderName s).title).data.drop n) = none) :
    parseFolderName ((parseFolderName s).title) =
      ⟨(parseFolderName s).title, none, none, none, none⟩ := by
  have htd : ((parseFolderName s).title).data =
      cleanTitle (extractFirst yearMatchAt (afterIds s.data).2.2.2).2 := rfl
  have hb : ∀ c ∈ ((parseFolderName s).title).data, isBracketChar c = false := by
    rw [htd]; exact cleanTitle_no_brackets _
  have hopen : ∀ c ∈ ((parseFolderName s).title).data, isIdOpen c = false := by
    intro c hc
    cases hoc : isIdOpen c with
    | false => rfl
    | true => exact absurd (isIdOpen_bracket c hoc) (by simp [hb c hc])
  have hids : afterIds ((parseFolderName s).title).data =
      (none, none, none, ((parseFolderName s).title).data) :=
    afterIds_no_open _ hopen
  have hyear : scanFirst yearMatchAt ((parseFolderName s).title).data = none :=
    scanFirst_eq_none _ _ h
  have he4 : extractFirst yearMatchAt ((parseFolderName s).title).data =
      (none, ((parseFolderName s).title).data) := by
    rw [extractFirst, hyear]
  have hclean : cleanTitle (((parseFolderName s).title).data) =
      ((parseFolderName s).title).data := by
    rw [htd]; exact cleanTitle_cleanTitle _
  show (⟨String.mk (cleanTitle (extractFirst yearMatchAt
      (afterIds ((parseFolderName s).title).data).2.2.2).2),
    (extractFirst yearMatchAt (afterIds ((parseFolderName s).title).data).2.2.2).1,
    (afterIds ((parseFolderName s).title).data).1.map String.mk,
    (afterIds ((parseFolderName s).title).data).2.1.map String.mk,
    (afterIds ((parseFolderName s).title).data).2.2.1.map String.mk⟩ : ParsedName) = _
  rw [hids]
  dsimp only
  rw [he4]
  dsimp only
  rw [hclean]
  rfl

/-- Witness for C6 (amended) at `"Movie (2020)"`: the extracted title
`"Movie"` has no year-like substring and re-parses to itself. -/
theorem c6_title_idempotent_witness :
    parseFolderName ((parseFolderName "Movie (2020)").title) =
      ⟨(parseFolderName "Movie (2020)").title, none, none, none, none⟩ :=
  c6_title_idempotent "Movie (2020)"
    (matchNone_all yearMatchAt ((parseFolderName "Movie (2020)").title).data
      (by decide) (by decide))

/-- C7, identity on clean inputs: when the input contains none of the six
bracket characters and no year-like substring anywhere, all four optional
fields are absent and the title is exactly the whitespace-normalised input
(runs of whitespace collapsed to one space, ends trimmed). -/
theorem c7_clean_input_identity (s : String)
    (hb : ∀ c ∈ s.data, isBracketChar c = false)
    (hy : ∀ n, yearMatchAt (s.data.drop n) = none) :
    parseFolderName s =
      ⟨String.mk (trimWs (collapseWs s.data)), none, none, none, none⟩ := by
  have hopen : ∀ c ∈ s.data, isIdOpen c = false := by
    intro c hc
    cases hoc : isIdOpen c with
    | false => rfl
    | true => exact absurd (isIdOpen_bracket c hoc) (by simp [hb c hc])
  have hids : afterIds s.data = (none, none, none, s.data) :=
    afterIds_no_open _ hopen
  have hyear : scanFirst yearMatchAt s.data = none := scanFirst_eq_none _ _ hy
  have he4 : extractFirst yearMatchAt s.data = (none, s.data) := by
    rw [extractFirst, hyear]
  have hfilter : s.data.filter (fun c => !isBracketChar c) = s.data :=
    List.filter_eq_self.mpr (fun c hc => by simp [hb c hc])
  show (⟨String.mk (cleanTitle (extractFirst yearMatchAt
      (afterIds s.data).2.2.2).2),
    (extractFirst yearMatchAt (afterIds s.data).2.2.2).1,
    (afterIds s.data).1.map String.mk,
    (afterIds s.data).2.1.map String.mk,
    (afterIds s.data).2.2.1.map String.mk⟩ : ParsedName) = _
  rw [hids]
  dsimp only
  rw [he4]
  dsimp only
  show (⟨String.mk (trimWs (collapseWs
    (s.data.filter (fun c => !isBracketChar c)))), none, none, none, none⟩ :
      ParsedName) = _
  rw [hfilter]

/-- Witness for C7 at `"  The   Matrix  "`: no brackets, no year; the parse
result is the normalised title with all optional fields absent. -/
theorem c7_clean_input_identity_witness :
    parseFolderName "  The   Matrix  " = ⟨"The Matrix", none, none, none, none⟩ := by
  have h := c7_clean_input_identity "  The   Matrix  " (by decide)
    (matchNone_all yearMatchAt "  The   Matrix  ".data (by decide) (by decide))
  rw [h]
  decide

end PosterForge
